import Mathlib

/-!
Verification of the TanGOAT Tango-puzzle solver core.

The solver algorithm is embedded from the code listings in `src/DIY.md`
(`solvePuzzle`, `dfs`, `isValidPlacement`, `checkThreeInRowHorizontal`,
`checkEdgeConstraints`).  Function bodies that the listing elides
(`checkThreeInRowVertical`, `checkRowColumnBalance`,
`getAdjacentEmptyCells`, the vertical half of `checkEdgeConstraints`, and
the `validate` entry point of the solver core) are modelled from the
specification and marked as such in their doc comments.

JavaScript boards are arrays of arrays of cell objects; we embed the
`contains` field directly, so a board is a list of lists of `CellState`.
Out-of-range reads yield `CellState.EMPTY` / `EdgeState.EMPTY`, which is
only ever relied upon beneath the explicit bounds guards that the source
code performs before each access.
-/

namespace TanGoat

/-- Cell contents, from the source's `CellState` enumeration. -/
inductive CellState
  | EMPTY
  | SUN
  | MOON
deriving DecidableEq

/-- Edge constraint states, from the source's `EdgeState` enumeration.
`EMPTY` is the "no constraint" state (the specification calls it NONE). -/
inductive EdgeState
  | EMPTY
  | EQUAL
  | OPPOSITE
deriving DecidableEq

/-- The board state: `size` is `BOARD_SIZE`; `board` the grid of cell
contents; `horizontal` the `edges.horizontal` matrix (`size` rows of
`size - 1` entries, entry `(r, c)` linking `(r, c)` to `(r, c+1)`);
`vertical` the `edges.vertical` matrix (`size - 1` rows of `size`
entries, entry `(r, c)` linking `(r, c)` to `(r+1, c)`). -/
structure Board where
  size : Nat
  board : List (List CellState)
  horizontal : List (List EdgeState)
  vertical : List (List EdgeState)
deriving DecidableEq

/-- Read `this.board[r][c].contains`. -/
def getCell (b : Board) (r c : Nat) : CellState :=
  (b.board.getD r []).getD c CellState.EMPTY

/-- Write `this.board[r][c].contains = v`. -/
def setCell (b : Board) (r c : Nat) (v : CellState) : Board :=
  { b with board := b.board.set r ((b.board.getD r []).set c v) }

/-- Read `this.edges.horizontal[r][c].state`. -/
def getHEdge (b : Board) (r c : Nat) : EdgeState :=
  (b.horizontal.getD r []).getD c EdgeState.EMPTY

/-- Read `this.edges.vertical[r][c].state`. -/
def getVEdge (b : Board) (r c : Nat) : EdgeState :=
  (b.vertical.getD r []).getD c EdgeState.EMPTY

/-- From src/DIY.md lines 295-323: `checkThreeInRowHorizontal(row, col,
symbol)`.  Returns `true` (a violation) when placing `symbol` at
`(row, col)` would complete a horizontal run of three: the two-before
window (`col >= 2`), the two-after window (`col <= BOARD_SIZE - 3`), or
the straddling window (`0 < col < BOARD_SIZE - 1`). -/
def checkThreeInRowHorizontal (b : Board) (row col : Nat) (symbol : CellState) : Bool :=
  (decide (2 ≤ col) && decide (getCell b row (col - 1) = symbol)
    && decide (getCell b row (col - 2) = symbol))
  || (decide (col + 3 ≤ b.size) && decide (getCell b row (col + 1) = symbol)
    && decide (getCell b row (col + 2) = symbol))
  || (decide (0 < col) && decide (col + 1 < b.size)
    && decide (getCell b row (col - 1) = symbol)
    && decide (getCell b row (col + 1) = symbol))

/-- Modelled from the spec: the body of `checkThreeInRowVertical` is not
shown in src/DIY.md (only its call site in `isValidPlacement`).  Per the
specification the column-wise check uses the same three sliding windows
as the horizontal one, with rows in place of columns. -/
def checkThreeInRowVertical (b : Board) (row col : Nat) (symbol : CellState) : Bool :=
  (decide (2 ≤ row) && decide (getCell b (row - 1) col = symbol)
    && decide (getCell b (row - 2) col = symbol))
  || (decide (row + 3 ≤ b.size) && decide (getCell b (row + 1) col = symbol)
    && decide (getCell b (row + 2) col = symbol))
  || (decide (0 < row) && decide (row + 1 < b.size)
    && decide (getCell b (row - 1) col = symbol)
    && decide (getCell b (row + 1) col = symbol))

/-- Number of occurrences of `symbol` among the currently filled cells of
row `row`. -/
def countInRow (b : Board) (row : Nat) (symbol : CellState) : Nat :=
  ((List.range b.size).filter (fun c => decide (getCell b row c = symbol))).length

/-- Number of occurrences of `symbol` among the currently filled cells of
column `col`. -/
def countInCol (b : Board) (col : Nat) (symbol : CellState) : Nat :=
  ((List.range b.size).filter (fun r => decide (getCell b r col = symbol))).length

/-- Modelled from the spec: the body of `checkRowColumnBalance` is not
shown in src/DIY.md (only its call site in `isValidPlacement`).  Per
specification section 4.2, reject (return `true`) when the row or the
column would exceed `size / 2` occurrences of `symbol` once it is
placed, counted over the currently filled cells. -/
def checkRowColumnBalance (b : Board) (row col : Nat) (symbol : CellState) : Bool :=
  decide (b.size / 2 < countInRow b row symbol + 1)
  || decide (b.size / 2 < countInCol b col symbol + 1)

/-- From src/DIY.md lines 329-351: `checkEdgeConstraints(row, col,
symbol)`.  The listing checks the horizontal edge to the right of
`(row, col)` (guard `col < EDGE_SIZE`) and elides the vertical part with
"similar logic", which we embed as the mirrored check of the edge below
`(row, col)` (guard `row < EDGE_SIZE`).  Note that the listing inspects
no edge on the left of or above the target cell. -/
def checkEdgeConstraints (b : Board) (row col : Nat) (symbol : CellState) : Bool :=
  (decide (col + 1 < b.size) &&
    (let edge := getHEdge b row col
     let rightCell := getCell b row (col + 1)
     (decide (edge = EdgeState.EQUAL) && decide (¬ rightCell = CellState.EMPTY)
       && decide (¬ rightCell = symbol))
     || (decide (edge = EdgeState.OPPOSITE) && decide (¬ rightCell = CellState.EMPTY)
       && decide (rightCell = symbol))))
  || (decide (row + 1 < b.size) &&
    (let edge := getVEdge b row col
     let belowCell := getCell b (row + 1) col
     (decide (edge = EdgeState.EQUAL) && decide (¬ belowCell = CellState.EMPTY)
       && decide (¬ belowCell = symbol))
     || (decide (edge = EdgeState.OPPOSITE) && decide (¬ belowCell = CellState.EMPTY)
       && decide (belowCell = symbol))))

/-- From src/DIY.md lines 275-289: `isValidPlacement(row, col, symbol)`
returns `true` when none of the four rule checks reports a violation. -/
def isValidPlacement (b : Board) (row col : Nat) (symbol : CellState) : Bool :=
  !(checkThreeInRowHorizontal b row col symbol)
  && !(checkThreeInRowVertical b row col symbol)
  && !(checkRowColumnBalance b row col symbol)
  && !(checkEdgeConstraints b row col symbol)

/-- Modelled from the spec: the body of `getAdjacentEmptyCells` is not
shown in src/DIY.md (only its use in the sort comparator of
`solvePuzzle`, which takes its `length`).  Per specification section 4.3
it counts the EMPTY 4-neighbors, within the board bounds, of a cell. -/
def adjacentEmptyCount (b : Board) (r c : Nat) : Nat :=
  (if 0 < r ∧ getCell b (r - 1) c = CellState.EMPTY then 1 else 0)
  + (if r + 1 < b.size ∧ getCell b (r + 1) c = CellState.EMPTY then 1 else 0)
  + (if 0 < c ∧ getCell b r (c - 1) = CellState.EMPTY then 1 else 0)
  + (if c + 1 < b.size ∧ getCell b r (c + 1) = CellState.EMPTY then 1 else 0)

/-- All board coordinates in row-major order, matching the nested loops
of `solvePuzzle`. -/
def allCoords (n : Nat) : List (Nat × Nat) :=
  (List.range n).flatMap (fun r => (List.range n).map (fun c => (r, c)))

/-- From src/DIY.md lines 357-365: the `emptyCells` list collected by
`solvePuzzle`, in row-major order. -/
def emptyCells (b : Board) : List (Nat × Nat) :=
  (allCoords b.size).filter (fun p => decide (getCell b p.1 p.2 = CellState.EMPTY))

/-- The comparator used by `solvePuzzle`'s sort: ascending
adjacent-EMPTY-cell count. -/
def adjRel (b : Board) : (Nat × Nat) → (Nat × Nat) → Prop :=
  fun p q => adjacentEmptyCount b p.1 p.2 ≤ adjacentEmptyCount b q.1 q.2

instance (b : Board) : DecidableRel (adjRel b) :=
  fun _ _ => Nat.decLe _ _

instance (b : Board) : IsTotal (Nat × Nat) (adjRel b) :=
  ⟨fun _ _ => Nat.le_total _ _⟩

instance (b : Board) : IsTrans (Nat × Nat) (adjRel b) :=
  ⟨fun _ _ _ => Nat.le_trans⟩

/-- From src/DIY.md lines 367-372: the empty cells sorted by ascending
adjacent-empty count.  ECMAScript's `Array.prototype.sort` is stable, so
we embed it with a stable insertion sort over the same comparator. -/
def sortedEmptyCells (b : Board) : List (Nat × Nat) :=
  List.insertionSort (adjRel b) (emptyCells b)

/-- From src/DIY.md lines 376-406: the recursive `dfs`.  JavaScript
mutates `this.board` and the `solution` array in place; the embedding
threads the board explicitly and returns the committed placements on
success, so the pair is (solution-or-null, board after the call).  MOON
is attempted before SUN, and each failed attempt is undone by writing
EMPTY back before the next candidate or the return. -/
def dfs : List (Nat × Nat) → Board → Option (List (Nat × Nat × CellState)) × Board
  | [], b => (some [], b)
  | (r, c) :: rest, b =>
    let afterMoon : Option (List (Nat × Nat × CellState)) × Board :=
      if isValidPlacement b r c CellState.MOON then
        match dfs rest (setCell b r c CellState.MOON) with
        | (some sol, b2) => (some ((r, c, CellState.MOON) :: sol), b2)
        | (none, b2) => (none, setCell b2 r c CellState.EMPTY)
      else (none, b)
    match afterMoon with
    | (some sol, b2) => (some sol, b2)
    | (none, b2) =>
      if isValidPlacement b2 r c CellState.SUN then
        match dfs rest (setCell b2 r c CellState.SUN) with
        | (some sol, b3) => (some ((r, c, CellState.SUN) :: sol), b3)
        | (none, b3) => (none, setCell b3 r c CellState.EMPTY)
      else (none, b2)

/-- From src/DIY.md lines 356-409: `solvePuzzle()` collects the empty
cells, sorts them by the heuristic, and runs `dfs(0)`.  The first
component is the returned value (`solution` on success, null — here
`none` — for NO_SOLUTION); the second is the board after the call. -/
def solvePuzzle (b : Board) : Option (List (Nat × Nat × CellState)) × Board :=
  dfs (sortedEmptyCells b) b

/-- Row-major index of a coordinate on an `n`-sized board. -/
def rmIdx (n : Nat) (p : Nat × Nat) : Nat := p.1 * n + p.2

/-- The heuristic order the specification describes for the sorted cell
list: ascending adjacent-empty count, ties broken by ascending row-major
position. -/
def lexLE (b : Board) (p q : Nat × Nat) : Prop :=
  adjacentEmptyCount b p.1 p.2 < adjacentEmptyCount b q.1 q.2
  ∨ (adjacentEmptyCount b p.1 p.2 = adjacentEmptyCount b q.1 q.2
     ∧ rmIdx b.size p ≤ rmIdx b.size q)

/-- The specification's description of the three-in-a-row rejection: some
sliding window of three consecutive in-bounds cells containing the
target — row-wise or column-wise — already holds the candidate symbol in
both of its cells other than the target. -/
def specThreeInRowWindows (b : Board) (row col : Nat) (symbol : CellState) : Prop :=
  (∃ s < b.size, s ≤ col ∧ col ≤ s + 2 ∧ s + 2 < b.size ∧
    ∀ j < 3, s + j ≠ col → getCell b row (s + j) = symbol)
  ∨ (∃ s < b.size, s ≤ row ∧ row ≤ s + 2 ∧ s + 2 < b.size ∧
    ∀ j < 3, s + j ≠ row → getCell b (s + j) col = symbol)

/-! ### A fuel-indexed view of the recursion, for termination -/

/-- The recursion of `dfs` with an explicit recursion-depth budget: `none`
means the budget ran out before the call returned.  Each recursive call
moves to the next index of the work list, so a budget exceeding the
remaining list length always suffices (`dfsFuel_eq_dfs`). -/
def dfsFuel : Nat → List (Nat × Nat) → Board →
    Option (Option (List (Nat × Nat × CellState)) × Board)
  | 0, _, _ => none
  | _ + 1, [], b => some (some [], b)
  | fuel + 1, (r, c) :: rest, b =>
    let afterMoon : Option (Option (List (Nat × Nat × CellState)) × Board) :=
      if isValidPlacement b r c CellState.MOON then
        match dfsFuel fuel rest (setCell b r c CellState.MOON) with
        | none => none
        | some (some sol, b2) => some (some ((r, c, CellState.MOON) :: sol), b2)
        | some (none, b2) => some (none, setCell b2 r c CellState.EMPTY)
      else some (none, b)
    match afterMoon with
    | none => none
    | some (some sol, b2) => some (some sol, b2)
    | some (none, b2) =>
      if isValidPlacement b2 r c CellState.SUN then
        match dfsFuel fuel rest (setCell b2 r c CellState.SUN) with
        | none => none
        | some (some sol, b3) => some (some ((r, c, CellState.SUN) :: sol), b3)
        | some (none, b3) => some (none, setCell b3 r c CellState.EMPTY)
      else some (none, b2)

/-! ### The solver core's structural validation, modelled from the spec -/

/-- Modelled from the spec: the full solver core (`solver.js`, listed in
DIY.md's file structure but not included under src/) receives, per the
input contract of specification section 6, a per-cell `locked` flag
alongside the grid; we pair the board with that flag matrix. -/
structure SpecBoard where
  core : Board
  locked : List (List Bool)
deriving DecidableEq

/-- The error taxonomy of the solver core's entry points, from
specification section 7. -/
inductive SolveError
  | InvalidBoardError
deriving DecidableEq

/-- Locked flag of a cell; false when out of range. -/
def lockedAt (sb : SpecBoard) (r c : Nat) : Bool :=
  (sb.locked.getD r []).getD c false

/-- The declared board size is even. -/
def sizeEven (b : Board) : Bool := decide (b.size % 2 = 0)

/-- The grid and the two edge matrices have the dimensions the input
contract prescribes for the declared size. -/
def dimsOk (b : Board) : Bool :=
  decide (b.board.length = b.size)
  && b.board.all (fun row => decide (row.length = b.size))
  && decide (b.horizontal.length = b.size)
  && b.horizontal.all (fun row => decide (row.length = b.size - 1))
  && decide (b.vertical.length = b.size - 1)
  && b.vertical.all (fun row => decide (row.length = b.size))

/-- No locked cell holds EMPTY. -/
def noLockedEmpty (sb : SpecBoard) : Bool :=
  (allCoords sb.core.size).all
    (fun p => !(lockedAt sb p.1 p.2)
      || decide (¬ getCell sb.core p.1 p.2 = CellState.EMPTY))

/-- Modelled from the spec: `validate(board)` (specification sections 6
and 7) checks the structural invariants of section 3, items 1 and 5 —
even size, edge matrices sized consistently with the board, no locked
EMPTY cell.  It is absent from src/. -/
def validate (sb : SpecBoard) : Bool :=
  sizeEven sb.core && dimsOk sb.core && noLockedEmpty sb

/-- Modelled from the spec: the core's `solve(board)` entry point
(specification sections 6 and 7) validates eagerly and only then runs
the search; a structural violation surfaces as `InvalidBoardError`
before any search step is taken. -/
def solve (sb : SpecBoard) :
    Except SolveError (Option (List (Nat × Nat × CellState)) × Board) :=
  if validate sb then Except.ok (solvePuzzle sb.core)
  else Except.error SolveError.InvalidBoardError

/-! ### Concrete boards and runs used in the claim instances -/

/-- Row of `n` EMPTY cells. -/
def emptyRow (n : Nat) : List CellState := List.replicate n CellState.EMPTY

/-- Row of `n` unconstrained edges. -/
def noEdgeRow (n : Nat) : List EdgeState := List.replicate n EdgeState.EMPTY

/-- All-EMPTY `n`-sized board with no edge constraints. -/
def blankBoard (n : Nat) : Board :=
  { size := n
  , board := List.replicate n (emptyRow n)
  , horizontal := List.replicate n (noEdgeRow (n - 1))
  , vertical := List.replicate (n - 1) (noEdgeRow n) }

/-- The specification's 4x4 scenario board: cell (0,0) pre-filled with
SUN, `horizontalEdges[0][0] = EQUAL`, all else EMPTY, unconstrained. -/
def scenarioBoard : Board :=
  { size := 4
  , board := [[CellState.SUN, CellState.EMPTY, CellState.EMPTY, CellState.EMPTY],
      emptyRow 4, emptyRow 4, emptyRow 4]
  , horizontal := [[EdgeState.EQUAL, EdgeState.EMPTY, EdgeState.EMPTY],
      noEdgeRow 3, noEdgeRow 3, noEdgeRow 3]
  , vertical := List.replicate 3 (noEdgeRow 4) }

/-- A 4x4 board with cell (1,1) pre-filled SUN and
`horizontalEdges[1][1] = EQUAL` linking (1,1) to (1,2). -/
def midEdgeBoard : Board :=
  { size := 4
  , board := [emptyRow 4,
      [CellState.EMPTY, CellState.SUN, CellState.EMPTY, CellState.EMPTY],
      emptyRow 4, emptyRow 4]
  , horizontal := [noEdgeRow 3,
      [EdgeState.EMPTY, EdgeState.EQUAL, EdgeState.EMPTY],
      noEdgeRow 3, noEdgeRow 3]
  , vertical := List.replicate 3 (noEdgeRow 4) }

/-- A 2x2 board with cell (0,0) pre-filled SUN and
`horizontalEdges[0][0] = EQUAL` linking (0,0) to (0,1). -/
def leftEdgeBoard : Board :=
  { size := 2
  , board := [[CellState.SUN, CellState.EMPTY], emptyRow 2]
  , horizontal := [[EdgeState.EQUAL], noEdgeRow 1]
  , vertical := [noEdgeRow 2] }

/-- A 6x6 board whose pre-filled cells contain the run SUN, SUN, SUN at
(0,1), (0,2), (0,3); only cell (5,5) is EMPTY; no edge constraints. -/
def lockedRunBoard : Board :=
  { size := 6
  , board :=
      [[CellState.MOON, CellState.SUN, CellState.SUN, CellState.SUN,
          CellState.MOON, CellState.MOON],
       [CellState.SUN, CellState.MOON, CellState.SUN, CellState.MOON,
          CellState.MOON, CellState.SUN],
       [CellState.MOON, CellState.SUN, CellState.MOON, CellState.SUN,
          CellState.SUN, CellState.MOON],
       [CellState.SUN, CellState.MOON, CellState.SUN, CellState.MOON,
          CellState.SUN, CellState.MOON],
       [CellState.MOON, CellState.SUN, CellState.MOON, CellState.SUN,
          CellState.MOON, CellState.SUN],
       [CellState.SUN, CellState.MOON, CellState.MOON, CellState.MOON,
          CellState.SUN, CellState.EMPTY]]
  , horizontal := List.replicate 6 (noEdgeRow 5)
  , vertical := List.replicate 5 (noEdgeRow 6) }

/-- `lockedRunBoard` paired with its locked flags: every pre-filled cell
is locked, the lone EMPTY cell (5,5) is not. -/
def lockedRunSpec : SpecBoard :=
  { core := lockedRunBoard
  , locked := [List.replicate 6 true, List.replicate 6 true,
      List.replicate 6 true, List.replicate 6 true, List.replicate 6 true,
      [true, true, true, true, true, false]] }

/-- A 4x4 board whose single EMPTY cell (0,3) admits neither symbol: its
row already holds two SUN, its column already holds two MOON. -/
def stuckBoard : Board :=
  { size := 4
  , board := [[CellState.SUN, CellState.SUN, CellState.MOON, CellState.EMPTY],
      [CellState.MOON, CellState.MOON, CellState.SUN, CellState.MOON],
      [CellState.SUN, CellState.MOON, CellState.SUN, CellState.MOON],
      [CellState.MOON, CellState.SUN, CellState.MOON, CellState.SUN]]
  , horizontal := List.replicate 4 (noEdgeRow 3)
  , vertical := List.replicate 3 (noEdgeRow 4) }

/-- A 2x2 board with cell (0,0) pre-filled SUN, unconstrained. -/
def prefilledBoard : Board :=
  { size := 2
  , board := [[CellState.SUN, CellState.EMPTY], emptyRow 2]
  , horizontal := [noEdgeRow 1, noEdgeRow 1]
  , vertical := [noEdgeRow 2] }

/-- The placement list the solver commits on `prefilledBoard`. -/
def prefilledSol : List (Nat × Nat × CellState) :=
  [(0, 1, CellState.MOON), (1, 0, CellState.MOON), (1, 1, CellState.SUN)]

/-- The board state after the successful run on `prefilledBoard`. -/
def prefilledFinal : Board :=
  { size := 2
  , board := [[CellState.SUN, CellState.MOON], [CellState.MOON, CellState.SUN]]
  , horizontal := [noEdgeRow 1, noEdgeRow 1]
  , vertical := [noEdgeRow 2] }

/-- The 2x2 all-EMPTY board. -/
def tinyBlankBoard : Board := blankBoard 2

/-- The placement list the solver commits on `tinyBlankBoard`. -/
def tinySol : List (Nat × Nat × CellState) :=
  [(0, 0, CellState.MOON), (0, 1, CellState.SUN),
   (1, 0, CellState.SUN), (1, 1, CellState.MOON)]

/-- The board state after the successful run on `tinyBlankBoard`. -/
def tinyFinal : Board :=
  { size := 2
  , board := [[CellState.MOON, CellState.SUN], [CellState.SUN, CellState.MOON]]
  , horizontal := List.replicate 2 (noEdgeRow 1)
  , vertical := List.replicate 1 (noEdgeRow 2) }

/-- A 4x4 board with SUN pre-filled at (0,0) and (0,1). -/
def pairRowBoard : Board :=
  { size := 4
  , board := [[CellState.SUN, CellState.SUN, CellState.EMPTY, CellState.EMPTY],
      emptyRow 4, emptyRow 4, emptyRow 4]
  , horizontal := List.replicate 4 (noEdgeRow 3)
  , vertical := List.replicate 3 (noEdgeRow 4) }

/-- A structurally invalid input: 3x3 (odd) all-EMPTY board, no locked
cells. -/
def oddSpecBoard : SpecBoard :=
  { core := blankBoard 3
  , locked := List.replicate 3 (List.replicate 3 false) }

/-! ### List and board access lemmas -/

theorem set_getD_self {α : Type} (l : List α) (i : Nat) (d : α) :
    l.set i (l.getD i d) = l := by
  induction l generalizing i with
  | nil => rfl
  | cons a t ih =>
    cases i with
    | zero => rfl
    | succ j => simpa [List.set, List.getD] using ih j

theorem getD_set_self {α : Type} (l : List α) (i : Nat) (a d : α) (h : i < l.length) :
    (l.set i a).getD i d = a := by
  rw [List.getD_eq_getElem?_getD, List.getElem?_set_self h]
  rfl

theorem getD_set_ne {α : Type} (l : List α) {i j : Nat} (h : i ≠ j) (a d : α) :
    (l.set i a).getD j d = l.getD j d := by
  rw [List.getD_eq_getElem?_getD, List.getElem?_set_ne h, ← List.getD_eq_getElem?_getD]

theorem size_setCell (b : Board) (r c : Nat) (v : CellState) :
    (setCell b r c v).size = b.size := rfl

theorem getCell_setCell_ne (b : Board) {r c r' c' : Nat} (h : (r', c') ≠ (r, c))
    (v : CellState) : getCell (setCell b r c v) r' c' = getCell b r' c' := by
  unfold getCell setCell
  by_cases hr : r' = r
  · subst hr
    have hc : c ≠ c' := fun hc => h (by rw [hc])
    by_cases hlen : r' < b.board.length
    · simp only [getD_set_self _ _ _ _ hlen]
      exact getD_set_ne _ hc _ _
    · rw [List.set_eq_of_length_le (Nat.le_of_not_lt hlen)]
  · rw [getD_set_ne _ (fun hrr => hr hrr.symm) _ _]

theorem setCell_restore (b : Board) {r c : Nat} (h : getCell b r c = CellState.EMPTY)
    (v : CellState) : setCell (setCell b r c v) r c CellState.EMPTY = b := by
  unfold getCell at h
  unfold setCell
  by_cases hlen : r < b.board.length
  · simp only [List.set_set, getD_set_self _ _ _ _ hlen, List.set_set]
    have : (b.board.getD r []).set c CellState.EMPTY = b.board.getD r [] := by
      rw [← h]; exact set_getD_self _ _ _
    rw [this, set_getD_self]
  · rw [List.set_eq_of_length_le (Nat.le_of_not_lt hlen),
      List.set_eq_of_length_le (Nat.le_of_not_lt hlen)]

/-! ### Structural lemmas about the search -/

/-- On success, the committed placements visit exactly the cells of the
work list, in order. -/
theorem dfs_some_coords : ∀ (cells : List (Nat × Nat)) (b : Board)
    (sol : List (Nat × Nat × CellState)) (b' : Board),
    dfs cells b = (some sol, b') →
    sol.map (fun p => (p.1, p.2.1)) = cells := by
  intro cells
  induction cells with
  | nil =>
    intro b sol b' h
    simp only [dfs, Prod.mk.injEq, Option.some.injEq] at h
    rw [← h.1]
    rfl
  | cons p rest ih =>
    obtain ⟨r, c⟩ := p
    intro b sol b' h
    simp only [dfs] at h
    by_cases hM : isValidPlacement b r c CellState.MOON = true
    · rw [if_pos hM] at h
      rcases hrec : dfs rest (setCell b r c CellState.MOON) with ⟨os, b2⟩
      rw [hrec] at h
      cases os with
      | some s =>
        simp only [Prod.mk.injEq, Option.some.injEq] at h
        rw [← h.1]
        simp only [List.map_cons, List.cons.injEq, true_and]
        exact ih _ _ _ hrec
      | none =>
        simp only at h
        by_cases hS : isValidPlacement (setCell b2 r c CellState.EMPTY) r c CellState.SUN = true
        · rw [if_pos hS] at h
          rcases hrec2 : dfs rest (setCell (setCell b2 r c CellState.EMPTY) r c CellState.SUN)
            with ⟨os2, b3⟩
          rw [hrec2] at h
          cases os2 with
          | some s2 =>
            simp only [Prod.mk.injEq, Option.some.injEq] at h
            rw [← h.1]
            simp only [List.map_cons, List.cons.injEq, true_and]
            exact ih _ _ _ hrec2
          | none => exact Option.noConfusion (congrArg Prod.fst h)
        · rw [if_neg hS] at h
          exact Option.noConfusion (congrArg Prod.fst h)
    · rw [if_neg hM] at h
      simp only at h
      by_cases hS : isValidPlacement b r c CellState.SUN = true
      · rw [if_pos hS] at h
        rcases hrec2 : dfs rest (setCell b r c CellState.SUN) with ⟨os2, b3⟩
        rw [hrec2] at h
        cases os2 with
        | some s2 =>
          simp only [Prod.mk.injEq, Option.some.injEq] at h
          rw [← h.1]
          simp only [List.map_cons, List.cons.injEq, true_and]
          exact ih _ _ _ hrec2
        | none => exact Option.noConfusion (congrArg Prod.fst h)
      · rw [if_neg hS] at h
        exact Option.noConfusion (congrArg Prod.fst h)

/-- Exact restoration: when the search fails, every placement made on the
failing path has been undone, and the board returned is the input board.
The hypotheses hold for the work list `solvePuzzle` builds: its cells are
EMPTY in `b` and pairwise distinct. -/
theorem dfs_none_board : ∀ (cells : List (Nat × Nat)) (b b2 : Board),
    (∀ p ∈ cells, getCell b p.1 p.2 = CellState.EMPTY) →
    List.Pairwise (fun p q => p ≠ q) cells →
    dfs cells b = (none, b2) → b2 = b := by
  intro cells
  induction cells with
  | nil =>
    intro b b2 _ _ h
    exact Option.noConfusion (congrArg Prod.fst h)
  | cons p rest ih =>
    obtain ⟨r, c⟩ := p
    intro b b2 hemp hpw h
    have hrc : getCell b r c = CellState.EMPTY := hemp (r, c) (List.mem_cons_self _ _)
    have hne : ∀ q ∈ rest, (r, c) ≠ q := (List.pairwise_cons.mp hpw).1
    have hpw' := (List.pairwise_cons.mp hpw).2
    have hempRest : ∀ (v : CellState) (q : Nat × Nat), q ∈ rest →
        getCell (setCell b r c v) q.1 q.2 = CellState.EMPTY := by
      intro v q hq
      rw [getCell_setCell_ne b (Ne.symm (hne q hq)) v]
      exact hemp q (List.mem_cons_of_mem _ hq)
    simp only [dfs] at h
    by_cases hM : isValidPlacement b r c CellState.MOON = true
    · rw [if_pos hM] at h
      rcases hrec : dfs rest (setCell b r c CellState.MOON) with ⟨os, bM⟩
      rw [hrec] at h
      cases os with
      | some s => exact Option.noConfusion (congrArg Prod.fst h)
      | none =>
        have hbM : bM = setCell b r c CellState.MOON :=
          ih _ _ (hempRest CellState.MOON) hpw' hrec
        simp only at h
        rw [hbM, setCell_restore b hrc] at h
        by_cases hS : isValidPlacement b r c CellState.SUN = true
        · rw [if_pos hS] at h
          rcases hrec2 : dfs rest (setCell b r c CellState.SUN) with ⟨os2, bS⟩
          rw [hrec2] at h
          cases os2 with
          | some s2 => exact Option.noConfusion (congrArg Prod.fst h)
          | none =>
            have hbS : bS = setCell b r c CellState.SUN :=
              ih _ _ (hempRest CellState.SUN) hpw' hrec2
            injection h with h1 h2
            rw [← h2, hbS]
            exact setCell_restore b hrc _
        · rw [if_neg hS] at h
          injection h with h1 h2
          exact h2.symm
    · rw [if_neg hM] at h
      simp only at h
      by_cases hS : isValidPlacement b r c CellState.SUN = true
      · rw [if_pos hS] at h
        rcases hrec2 : dfs rest (setCell b r c CellState.SUN) with ⟨os2, bS⟩
        rw [hrec2] at h
        cases os2 with
        | some s2 => exact Option.noConfusion (congrArg Prod.fst h)
        | none =>
          have hbS : bS = setCell b r c CellState.SUN :=
            ih _ _ (hempRest CellState.SUN) hpw' hrec2
          injection h with h1 h2
          rw [← h2, hbS]
          exact setCell_restore b hrc _
      · rw [if_neg hS] at h
        injection h with h1 h2
        exact h2.symm

/-- The search never touches a cell outside its work list: whatever the
outcome, such a cell reads the same before and after. -/
theorem dfs_outside : ∀ (cells : List (Nat × Nat)) (b : Board) (p : Nat × Nat),
    p ∉ cells → getCell (dfs cells b).2 p.1 p.2 = getCell b p.1 p.2 := by
  intro cells
  induction cells with
  | nil => intro b p _; rfl
  | cons q rest ih =>
    obtain ⟨r, c⟩ := q
    intro b p hp
    have hpne : p ≠ (r, c) := fun he => hp (he ▸ List.mem_cons_self _ _)
    have hprest : p ∉ rest := fun hm => hp (List.mem_cons_of_mem _ hm)
    have hset : ∀ (b0 : Board) (v : CellState),
        getCell (setCell b0 r c v) p.1 p.2 = getCell b0 p.1 p.2 := by
      intro b0 v
      exact getCell_setCell_ne b0 hpne v
    simp only [dfs]
    by_cases hM : isValidPlacement b r c CellState.MOON = true
    · rw [if_pos hM]
      rcases hrec : dfs rest (setCell b r c CellState.MOON) with ⟨os, bM⟩
      have hbM : getCell bM p.1 p.2 = getCell b p.1 p.2 := by
        have := ih (setCell b r c CellState.MOON) p hprest
        rw [hrec] at this
        rw [this, hset]
      cases os with
      | some s => simpa using hbM
      | none =>
        simp only
        by_cases hS :
            isValidPlacement (setCell bM r c CellState.EMPTY) r c CellState.SUN = true
        · rw [if_pos hS]
          rcases hrec2 :
            dfs rest (setCell (setCell bM r c CellState.EMPTY) r c CellState.SUN)
            with ⟨os2, bS⟩
          have hbS : getCell bS p.1 p.2 = getCell b p.1 p.2 := by
            have := ih (setCell (setCell bM r c CellState.EMPTY) r c CellState.SUN) p hprest
            rw [hrec2] at this
            rw [this, hset, hset, hbM]
          cases os2 with
          | some s2 => simpa using hbS
          | none => simpa [hset] using hbS
        · rw [if_neg hS]
          simpa [hset] using hbM
    · rw [if_neg hM]
      simp only
      by_cases hS : isValidPlacement b r c CellState.SUN = true
      · rw [if_pos hS]
        rcases hrec2 : dfs rest (setCell b r c CellState.SUN) with ⟨os2, bS⟩
        have hbS : getCell bS p.1 p.2 = getCell b p.1 p.2 := by
          have := ih (setCell b r c CellState.SUN) p hprest
          rw [hrec2] at this
          rw [this, hset]
        cases os2 with
        | some s2 => simpa using hbS
        | none => simpa [hset] using hbS
      · rw [if_neg hS]

/-! ### The empty-cell list and its ordering -/


theorem mem_allCoords {n : Nat} {p : Nat × Nat} :
    p ∈ allCoords n ↔ p.1 < n ∧ p.2 < n := by
  obtain ⟨r, c⟩ := p
  simp [allCoords, List.mem_flatMap, List.mem_map, List.mem_range]

theorem rm_pairwise_allCoords (n : Nat) :
    List.Pairwise (fun p q => rmIdx n p < rmIdx n q) (allCoords n) := by
  unfold allCoords
  rw [List.pairwise_flatMap]
  constructor
  · intro r _
    rw [List.pairwise_map]
    refine (List.pairwise_lt_range n).imp ?_
    intro c1 c2 h
    simpa [rmIdx] using Nat.add_lt_add_left h (r * n)
  · refine (List.pairwise_lt_range n).imp ?_
    intro r1 r2 hlt x hx y hy
    simp only [List.mem_map, List.mem_range] at hx hy
    obtain ⟨c1, hc1, rfl⟩ := hx
    obtain ⟨c2, hc2, rfl⟩ := hy
    have h1 : r1 * n + c1 < (r1 + 1) * n := by
      simpa [Nat.succ_mul] using Nat.add_lt_add_left hc1 (r1 * n)
    have h2 : (r1 + 1) * n ≤ r2 * n := Nat.mul_le_mul_right n hlt
    exact Nat.lt_of_lt_of_le (Nat.lt_of_lt_of_le h1 h2) (Nat.le_add_right _ _)

theorem rm_pairwise_emptyCells (b : Board) :
    List.Pairwise (fun p q => rmIdx b.size p < rmIdx b.size q) (emptyCells b) :=
  List.Pairwise.sublist (List.filter_sublist _) (rm_pairwise_allCoords b.size)

theorem pairwise_ne_emptyCells (b : Board) :
    List.Pairwise (fun p q : Nat × Nat => p ≠ q) (emptyCells b) := by
  refine (rm_pairwise_emptyCells b).imp ?_
  intro p q h heq
  rw [heq] at h
  exact Nat.lt_irrefl _ h

theorem mem_emptyCells {b : Board} {p : Nat × Nat} :
    p ∈ emptyCells b ↔
      p.1 < b.size ∧ p.2 < b.size ∧ getCell b p.1 p.2 = CellState.EMPTY := by
  simp [emptyCells, List.mem_filter, mem_allCoords, and_assoc]

theorem perm_sortedEmptyCells (b : Board) :
    (sortedEmptyCells b).Perm (emptyCells b) :=
  List.perm_insertionSort _ _

theorem mem_sortedEmptyCells {b : Board} {p : Nat × Nat} :
    p ∈ sortedEmptyCells b ↔ p ∈ emptyCells b :=
  (perm_sortedEmptyCells b).mem_iff

theorem pairwise_ne_sortedEmptyCells (b : Board) :
    List.Pairwise (fun p q : Nat × Nat => p ≠ q) (sortedEmptyCells b) :=
  ((perm_sortedEmptyCells b).nodup_iff).mpr (pairwise_ne_emptyCells b)

theorem emp_sortedEmptyCells {b : Board} {p : Nat × Nat} (h : p ∈ sortedEmptyCells b) :
    getCell b p.1 p.2 = CellState.EMPTY :=
  (mem_emptyCells.mp (mem_sortedEmptyCells.mp h)).2.2


/-- Inserting an element that stands (in row-major order) strictly before
everything in an already heuristically sorted list keeps the list
heuristically sorted: this is the stability of insertion sort. -/
theorem orderedInsert_lex_sorted (b : Board) (a : Nat × Nat) :
    ∀ l : List (Nat × Nat), List.Sorted (lexLE b) l →
    (∀ x ∈ l, rmIdx b.size a < rmIdx b.size x) →
    List.Sorted (lexLE b) (List.orderedInsert (adjRel b) a l) := by
  intro l
  induction l with
  | nil =>
    intro _ _
    simp [List.orderedInsert]
  | cons x t ih =>
    intro hs ha
    rw [List.orderedInsert]
    by_cases h : adjRel b a x
    · rw [if_pos h]
      rw [List.sorted_cons]
      refine ⟨?_, hs⟩
      intro y hy
      have hay : adjacentEmptyCount b a.1 a.2 ≤ adjacentEmptyCount b y.1 y.2 := by
        rcases List.mem_cons.mp hy with rfl | hyt
        · exact h
        · rcases (List.sorted_cons.mp hs).1 y hyt with hlt | ⟨heq, _⟩
          · exact Nat.le_trans h (Nat.le_of_lt hlt)
          · exact heq ▸ h
      cases Nat.lt_or_ge (adjacentEmptyCount b a.1 a.2) (adjacentEmptyCount b y.1 y.2) with
      | inl hlt => exact Or.inl hlt
      | inr hge =>
        exact Or.inr ⟨Nat.le_antisymm hay hge, Nat.le_of_lt (ha y hy)⟩
    · rw [if_neg h]
      rw [List.sorted_cons]
      constructor
      · intro y hy
        rcases (List.mem_orderedInsert _).mp hy with rfl | hyt
        · exact Or.inl (Nat.lt_of_not_le h)
        · exact (List.sorted_cons.mp hs).1 y hyt
      · exact ih (List.sorted_cons.mp hs).2 (fun x hx => ha x (List.mem_cons_of_mem _ hx))

/-- A stable insertion sort by the adjacent-empty-count comparator, run on
a list whose row-major indices are strictly increasing, produces a list
sorted by the full heuristic order (count first, row-major tie-break). -/
theorem sorted_lex_insertionSort (b : Board) :
    ∀ l : List (Nat × Nat),
    List.Pairwise (fun p q => rmIdx b.size p < rmIdx b.size q) l →
    List.Sorted (lexLE b) (List.insertionSort (adjRel b) l) := by
  intro l
  induction l with
  | nil => intro _; simp [List.insertionSort]
  | cons a t ih =>
    intro hpw
    rw [List.insertionSort]
    apply orderedInsert_lex_sorted
    · exact ih (List.pairwise_cons.mp hpw).2
    · intro x hx
      exact (List.pairwise_cons.mp hpw).1 x
        (((List.perm_insertionSort _ t).mem_iff).mp hx)

theorem sorted_lex_sortedEmptyCells (b : Board) :
    List.Sorted (lexLE b) (sortedEmptyCells b) :=
  sorted_lex_insertionSort b _ (rm_pairwise_emptyCells b)

/-! ### Specification-side reading of the three-in-a-row check -/


theorem checkThreeInRowHorizontal_iff (b : Board) (row col : Nat) (symbol : CellState)
    (hc : col < b.size) :
    checkThreeInRowHorizontal b row col symbol = true ↔
      ∃ s < b.size, s ≤ col ∧ col ≤ s + 2 ∧ s + 2 < b.size ∧
        ∀ j < 3, s + j ≠ col → getCell b row (s + j) = symbol := by
  unfold checkThreeInRowHorizontal
  simp only [Bool.or_eq_true, Bool.and_eq_true, decide_eq_true_eq, and_assoc, or_assoc]
  constructor
  · rintro (⟨h2, h1a, h1b⟩ | ⟨h3, h2a, h2b⟩ | ⟨h0, hlt, h3a, h3b⟩)
    · refine ⟨col - 2, by omega, by omega, by omega, by omega, ?_⟩
      intro j hj hne
      interval_cases j
      · have e : col - 2 + 0 = col - 2 := by omega
        rw [e]; exact h1b
      · have e : col - 2 + 1 = col - 1 := by omega
        rw [e]; exact h1a
      · exact absurd (by omega) hne
    · refine ⟨col, by omega, by omega, by omega, by omega, ?_⟩
      intro j hj hne
      interval_cases j
      · exact absurd (by omega) hne
      · exact h2a
      · exact h2b
    · refine ⟨col - 1, by omega, by omega, by omega, by omega, ?_⟩
      intro j hj hne
      interval_cases j
      · have e : col - 1 + 0 = col - 1 := by omega
        rw [e]; exact h3a
      · exact absurd (by omega) hne
      · have e : col - 1 + 2 = col + 1 := by omega
        rw [e]; exact h3b
  · rintro ⟨s, hs, hsc, hcs, hbound, hcells⟩
    have hcase : s + 2 = col ∨ s + 1 = col ∨ s = col := by omega
    rcases hcase with hcase | hcase | hcase
    · refine Or.inl ⟨by omega, ?_, ?_⟩
      · have h := hcells 1 (by omega) (by omega)
        have e : s + 1 = col - 1 := by omega
        rwa [e] at h
      · have h := hcells 0 (by omega) (by omega)
        have e : s + 0 = col - 2 := by omega
        rwa [e] at h
    · refine Or.inr (Or.inr ⟨by omega, by omega, ?_, ?_⟩)
      · have h := hcells 0 (by omega) (by omega)
        have e : s + 0 = col - 1 := by omega
        rwa [e] at h
      · have h := hcells 2 (by omega) (by omega)
        have e : s + 2 = col + 1 := by omega
        rwa [e] at h
    · refine Or.inr (Or.inl ⟨by omega, ?_, ?_⟩)
      · have h := hcells 1 (by omega) (by omega)
        have e : s + 1 = col + 1 := by omega
        rwa [e] at h
      · have h := hcells 2 (by omega) (by omega)
        have e : s + 2 = col + 2 := by omega
        rwa [e] at h

theorem checkThreeInRowVertical_iff (b : Board) (row col : Nat) (symbol : CellState)
    (hr : row < b.size) :
    checkThreeInRowVertical b row col symbol = true ↔
      ∃ s < b.size, s ≤ row ∧ row ≤ s + 2 ∧ s + 2 < b.size ∧
        ∀ j < 3, s + j ≠ row → getCell b (s + j) col = symbol := by
  unfold checkThreeInRowVertical
  simp only [Bool.or_eq_true, Bool.and_eq_true, decide_eq_true_eq, and_assoc, or_assoc]
  constructor
  · rintro (⟨h2, h1a, h1b⟩ | ⟨h3, h2a, h2b⟩ | ⟨h0, hlt, h3a, h3b⟩)
    · refine ⟨row - 2, by omega, by omega, by omega, by omega, ?_⟩
      intro j hj hne
      interval_cases j
      · have e : row - 2 + 0 = row - 2 := by omega
        rw [e]; exact h1b
      · have e : row - 2 + 1 = row - 1 := by omega
        rw [e]; exact h1a
      · exact absurd (by omega) hne
    · refine ⟨row, by omega, by omega, by omega, by omega, ?_⟩
      intro j hj hne
      interval_cases j
      · exact absurd (by omega) hne
      · exact h2a
      · exact h2b
    · refine ⟨row - 1, by omega, by omega, by omega, by omega, ?_⟩
      intro j hj hne
      interval_cases j
      · have e : row - 1 + 0 = row - 1 := by omega
        rw [e]; exact h3a
      · exact absurd (by omega) hne
      · have e : row - 1 + 2 = row + 1 := by omega
        rw [e]; exact h3b
  · rintro ⟨s, hs, hsc, hcs, hbound, hcells⟩
    have hcase : s + 2 = row ∨ s + 1 = row ∨ s = row := by omega
    rcases hcase with hcase | hcase | hcase
    · refine Or.inl ⟨by omega, ?_, ?_⟩
      · have h := hcells 1 (by omega) (by omega)
        have e : s + 1 = row - 1 := by omega
        rwa [e] at h
      · have h := hcells 0 (by omega) (by omega)
        have e : s + 0 = row - 2 := by omega
        rwa [e] at h
    · refine Or.inr (Or.inr ⟨by omega, by omega, ?_, ?_⟩)
      · have h := hcells 0 (by omega) (by omega)
        have e : s + 0 = row - 1 := by omega
        rwa [e] at h
      · have h := hcells 2 (by omega) (by omega)
        have e : s + 2 = row + 1 := by omega
        rwa [e] at h
    · refine Or.inr (Or.inl ⟨by omega, ?_, ?_⟩)
      · have h := hcells 1 (by omega) (by omega)
        have e : s + 1 = row + 1 := by omega
        rwa [e] at h
      · have h := hcells 2 (by omega) (by omega)
        have e : s + 2 = row + 2 := by omega
        rwa [e] at h

/-- Any budget strictly larger than the work-list length suffices: the
fueled recursion completes and computes exactly the total function
`dfs`.  This is the termination argument for the source's recursion,
whose depth is bounded by the number of empty cells. -/
theorem dfsFuel_eq_dfs : ∀ (cells : List (Nat × Nat)) (fuel : Nat) (b : Board),
    cells.length < fuel → dfsFuel fuel cells b = some (dfs cells b) := by
  intro cells
  induction cells with
  | nil =>
    intro fuel b h
    cases fuel with
    | zero => exact absurd h (Nat.lt_irrefl 0)
    | succ f => rfl
  | cons p rest ih =>
    obtain ⟨r, c⟩ := p
    intro fuel b h
    cases fuel with
    | zero => exact absurd h (Nat.not_lt_zero _)
    | succ f =>
      have hlen : rest.length < f := by
        simpa [List.length_cons, Nat.succ_lt_succ_iff] using h
      simp only [dfsFuel, dfs]
      by_cases hM : isValidPlacement b r c CellState.MOON = true
      · rw [if_pos hM, if_pos hM, ih f _ hlen]
        rcases hrec : dfs rest (setCell b r c CellState.MOON) with ⟨os, bM⟩
        cases os with
        | some s => rfl
        | none =>
          simp only
          by_cases hS :
              isValidPlacement (setCell bM r c CellState.EMPTY) r c CellState.SUN = true
          · rw [if_pos hS, if_pos hS, ih f _ hlen]
            rcases hrec2 :
              dfs rest (setCell (setCell bM r c CellState.EMPTY) r c CellState.SUN)
              with ⟨os2, bS⟩
            cases os2 with
            | some s2 => rfl
            | none => rfl
          · rw [if_neg hS, if_neg hS]
      · rw [if_neg hM, if_neg hM]
        simp only
        by_cases hS : isValidPlacement b r c CellState.SUN = true
        · rw [if_pos hS, if_pos hS, ih f _ hlen]
          rcases hrec2 : dfs rest (setCell b r c CellState.SUN) with ⟨os2, bS⟩
          cases os2 with
          | some s2 => rfl
          | none => rfl
        · rw [if_neg hS, if_neg hS]

/-- In a list of pairwise distinct elements, an element that occurs
occurs exactly once: the sublist of entries equal to it has length 1. -/
theorem filter_eq_length_one_of_pairwise_ne {α : Type} [DecidableEq α] :
    ∀ l : List α, List.Pairwise (fun p q => p ≠ q) l → ∀ a ∈ l,
      (l.filter (fun x => decide (x = a))).length = 1 := by
  intro l
  induction l with
  | nil => intro _ a ha; cases ha
  | cons x t ih =>
    intro hpw a ha
    have hne : ∀ q ∈ t, x ≠ q := (List.pairwise_cons.mp hpw).1
    rcases List.mem_cons.mp ha with rfl | hat
    · rw [List.filter_cons]
      have hx : (decide (a = a)) = true := by simp
      rw [if_pos hx]
      have hnil : t.filter (fun y => decide (y = a)) = [] := by
        rw [List.filter_eq_nil_iff]
        intro y hy
        simp only [decide_eq_true_eq]
        intro hyx
        exact hne y hy hyx.symm
      rw [hnil]
      rfl
    · rw [List.filter_cons]
      have hx : (decide (x = a)) = false := by
        simp only [decide_eq_false_iff_not]
        exact hne a hat
      rw [if_neg (by simp [hx])]
      exact ih (List.pairwise_cons.mp hpw).2 a hat

/-! ### Claim instances -/

set_option maxRecDepth 10000

/-- C1: refuted as stated — `solvePuzzle` can return a solution that
violates an EQUAL edge.  On `midEdgeBoard` (4x4, cell (1,1) pre-filled
SUN, `horizontalEdges[1][1] = EQUAL`) the search succeeds yet leaves SUN
at (1,1) and MOON at (1,2) across the EQUAL edge: `checkEdgeConstraints`
never inspects the edge arriving from the left of the cell being
placed, so an edge whose left endpoint was filled first goes
unenforced. -/
theorem solvePuzzle_solution_violates_equal_edge :
    (solvePuzzle midEdgeBoard).1.isSome = true
    ∧ getHEdge midEdgeBoard 1 1 = EdgeState.EQUAL
    ∧ getCell (solvePuzzle midEdgeBoard).2 1 1 = CellState.SUN
    ∧ getCell (solvePuzzle midEdgeBoard).2 1 2 = CellState.MOON := by
  decide

/-- C2: refuted as stated — `isValidPlacement` accepts a placement that
contradicts the EQUAL edge arriving from the left: on `leftEdgeBoard`
(2x2, cell (0,0) pre-filled SUN, `horizontalEdges[0][0] = EQUAL`)
placing MOON at the EMPTY cell (0,1) is accepted, because only the
edges on the right of and below the target cell are inspected. -/
theorem isValidPlacement_ignores_left_edge :
    getHEdge leftEdgeBoard 0 0 = EdgeState.EQUAL
    ∧ getCell leftEdgeBoard 0 0 = CellState.SUN
    ∧ getCell leftEdgeBoard 0 1 = CellState.EMPTY
    ∧ isValidPlacement leftEdgeBoard 0 1 CellState.MOON = true := by
  decide

/-- C3: whenever `solvePuzzle` reports NO_SOLUTION (null), the board
after the call is identical to its pre-call state — every placement
made during the failed search was undone. -/
theorem solvePuzzle_failure_restores (b : Board)
    (h : (solvePuzzle b).1 = none) : (solvePuzzle b).2 = b := by
  rcases hres : solvePuzzle b with ⟨os, b2⟩
  have hos : os = none := by rw [hres] at h; exact h
  subst hos
  have hdfs : dfs (sortedEmptyCells b) b = (none, b2) := hres
  exact dfs_none_board (sortedEmptyCells b) b b2
    (fun p hp => emp_sortedEmptyCells hp)
    (pairwise_ne_sortedEmptyCells b) hdfs

/-- Witness for C3: on `stuckBoard` the single empty cell admits neither
symbol, the solver reports NO_SOLUTION, and the board is returned
untouched. -/
theorem solvePuzzle_failure_restores_witness :
    (solvePuzzle stuckBoard).1 = none ∧ (solvePuzzle stuckBoard).2 = stuckBoard :=
  ⟨by decide, solvePuzzle_failure_restores stuckBoard (by decide)⟩

/-- C4: on success the placement list visits the initially-EMPTY cells in
exactly the heuristic order — ascending adjacent-empty count with ties
broken by row-major position, each cell exactly once (the sorted list is
a permutation of the row-major empty-cell list and is sorted by the full
tie-broken order) — and at each cell MOON is attempted before SUN:
whenever MOON is valid and completes the remaining suffix, the committed
placement at that cell is MOON. -/
theorem solvePuzzle_heuristic_order (b : Board) :
    (∀ sol b2, solvePuzzle b = (some sol, b2) →
      sol.map (fun p => (p.1, p.2.1)) = sortedEmptyCells b)
    ∧ (sortedEmptyCells b).Perm (emptyCells b)
    ∧ List.Sorted (lexLE b) (sortedEmptyCells b)
    ∧ (∀ r c rest sol b2, isValidPlacement b r c CellState.MOON = true →
        dfs rest (setCell b r c CellState.MOON) = (some sol, b2) →
        dfs ((r, c) :: rest) b = (some ((r, c, CellState.MOON) :: sol), b2)) := by
  refine ⟨?_, perm_sortedEmptyCells b, sorted_lex_sortedEmptyCells b, ?_⟩
  · intro sol b2 h
    exact dfs_some_coords _ _ _ _ h
  · intro r c rest sol b2 hval hrec
    simp only [dfs]
    rw [if_pos hval, hrec]

/-- Witness for C4 on the 2x2 blank board: the committed placements visit
the sorted empty-cell list in order. -/
theorem solvePuzzle_heuristic_order_witness :
    tinySol.map (fun p => (p.1, p.2.1)) = sortedEmptyCells tinyBlankBoard :=
  (solvePuzzle_heuristic_order tinyBlankBoard).1 tinySol tinyFinal (by decide)

/-- C5: the three-in-a-row component of `isValidPlacement` fires exactly
when some in-bounds sliding window of three consecutive cells containing
the target — row-wise or column-wise — already holds the candidate
symbol in both of its other two cells; and when it fires, the placement
is rejected. -/
theorem threeInRow_component_iff (b : Board) (row col : Nat) (symbol : CellState)
    (hr : row < b.size) (hc : col < b.size) :
    ((checkThreeInRowHorizontal b row col symbol
        || checkThreeInRowVertical b row col symbol) = true
      ↔ specThreeInRowWindows b row col symbol)
    ∧ (specThreeInRowWindows b row col symbol →
        isValidPlacement b row col symbol = false) := by
  constructor
  · rw [Bool.or_eq_true, checkThreeInRowHorizontal_iff b row col symbol hc,
      checkThreeInRowVertical_iff b row col symbol hr]
    exact Iff.rfl
  · intro hspec
    have hfire : (checkThreeInRowHorizontal b row col symbol
        || checkThreeInRowVertical b row col symbol) = true := by
      rw [Bool.or_eq_true, checkThreeInRowHorizontal_iff b row col symbol hc,
        checkThreeInRowVertical_iff b row col symbol hr]
      exact hspec
    have hfire2 : checkThreeInRowHorizontal b row col symbol = true
        ∨ checkThreeInRowVertical b row col symbol = true := by
      simpa using hfire
    rcases hfire2 with hcase | hcase
    · simp [isValidPlacement, hcase]
    · simp [isValidPlacement, hcase]

/-- Witness for C5 on `pairRowBoard` (SUN at (0,0) and (0,1)): placing
SUN at (0,2) completes the two-before window; the window predicate holds
and the placement is rejected. -/
theorem threeInRow_component_iff_witness :
    specThreeInRowWindows pairRowBoard 0 2 CellState.SUN
    ∧ isValidPlacement pairRowBoard 0 2 CellState.SUN = false := by
  have h := threeInRow_component_iff pairRowBoard 0 2 CellState.SUN (by decide) (by decide)
  exact ⟨h.1.mp (by decide), h.2 (h.1.mp (by decide))⟩

/-- C6: in every returned solution, each initially non-EMPTY (locked)
cell keeps its original symbol on the final board, and each initially
EMPTY cell appears exactly once in the placement list. -/
theorem solvePuzzle_conservation (b : Board) (sol : List (Nat × Nat × CellState))
    (b2 : Board) (h : solvePuzzle b = (some sol, b2)) :
    (∀ r c, ¬ getCell b r c = CellState.EMPTY → getCell b2 r c = getCell b r c)
    ∧ (∀ r c, r < b.size → c < b.size → getCell b r c = CellState.EMPTY →
        ((sol.map (fun p => (p.1, p.2.1))).filter
          (fun q => decide (q = (r, c)))).length = 1) := by
  constructor
  · intro r c hne
    have hnotmem : ((r, c) : Nat × Nat) ∉ sortedEmptyCells b := by
      intro hm
      exact hne (emp_sortedEmptyCells hm)
    have hout := dfs_outside (sortedEmptyCells b) b (r, c) hnotmem
    rw [show dfs (sortedEmptyCells b) b = (some sol, b2) from h] at hout
    exact hout
  · intro r c hr hc he
    rw [dfs_some_coords _ _ _ _ h]
    exact filter_eq_length_one_of_pairwise_ne _ (pairwise_ne_sortedEmptyCells b) _
      (mem_sortedEmptyCells.mpr (mem_emptyCells.mpr ⟨hr, hc, he⟩))

/-- Witness for C6 on `prefilledBoard`: the pre-filled SUN at (0,0)
survives and the empty cell (0,1) appears exactly once in the placement
list. -/
theorem solvePuzzle_conservation_witness :
    getCell prefilledFinal 0 0 = getCell prefilledBoard 0 0
    ∧ ((prefilledSol.map (fun p => (p.1, p.2.1))).filter
        (fun q => decide (q = (0, 1)))).length = 1 := by
  have h := solvePuzzle_conservation prefilledBoard prefilledSol prefilledFinal (by decide)
  exact ⟨h.1 0 0 (by decide), h.2 0 1 (by decide) (by decide) (by decide)⟩

/-- C7: the (spec-modelled) `validate` rejects, and `solve` raises
`InvalidBoardError` on, every board violating a structural invariant —
odd size, edge-matrix dimensions inconsistent with the declared size, or
a locked EMPTY cell; `solve`'s error branch returns before any search
step. -/
theorem validate_rejects_structural (sb : SpecBoard)
    (h : sb.core.size % 2 = 1
      ∨ dimsOk sb.core = false
      ∨ ∃ r c, r < sb.core.size ∧ c < sb.core.size ∧ lockedAt sb r c = true
          ∧ getCell sb.core r c = CellState.EMPTY) :
    validate sb = false ∧ solve sb = Except.error SolveError.InvalidBoardError := by
  have hv : validate sb = false := by
    cases hval : validate sb with
    | false => rfl
    | true =>
      exfalso
      have h1 : sizeEven sb.core = true ∧ dimsOk sb.core = true
          ∧ noLockedEmpty sb = true := by
        simpa [validate, Bool.and_eq_true, and_assoc] using hval
      rcases h with h | h | h
      · have h2 : sb.core.size % 2 = 0 := by
          have h3 := h1.1
          simpa [sizeEven] using h3
        omega
      · rw [h] at h1
        exact Bool.noConfusion h1.2.1
      · obtain ⟨r, c, hr, hc, hl, he⟩ := h
        have hall := h1.2.2
        rw [noLockedEmpty, List.all_eq_true] at hall
        have hmem : ((r, c) : Nat × Nat) ∈ allCoords sb.core.size :=
          mem_allCoords.mpr ⟨hr, hc⟩
        have hcell := hall _ hmem
        simp [hl, he] at hcell
  exact ⟨hv, by simp [solve, hv]⟩

/-- Witness for C7: the odd-sized (3x3) board is rejected before any
search. -/
theorem validate_rejects_structural_witness :
    validate oddSpecBoard = false
    ∧ solve oddSpecBoard = Except.error SolveError.InvalidBoardError :=
  validate_rejects_structural oddSpecBoard (Or.inl (by decide))

/-- C8: refuted as stated — on the specification's 4x4 scenario board
(cell (0,0) pre-filled SUN, `horizontalEdges[0][0] = EQUAL`) the solver
does return a solution, but it assigns MOON, not SUN, to cell (0,1):
the EQUAL edge is never consulted when placing at (0,1), and MOON is
tried first. -/
theorem solvePuzzle_scenario_assigns_moon :
    getHEdge scenarioBoard 0 0 = EdgeState.EQUAL
    ∧ getCell scenarioBoard 0 0 = CellState.SUN
    ∧ (solvePuzzle scenarioBoard).1.isSome = true
    ∧ getCell (solvePuzzle scenarioBoard).2 0 1 = CellState.MOON := by
  decide

/-- C9: refuted as stated — on `lockedRunBoard` (6x6, pre-filled SUN run
at (0,1), (0,2), (0,3), single EMPTY cell (5,5)) the structural
validation passes and the solver returns a solution rather than
reporting failure, leaving the locked three-in-a-row in the final board:
pre-filled cells are never re-validated against the three-in-a-row
rule. -/
theorem solvePuzzle_accepts_locked_three_run :
    getCell lockedRunBoard 0 1 = CellState.SUN
    ∧ getCell lockedRunBoard 0 2 = CellState.SUN
    ∧ getCell lockedRunBoard 0 3 = CellState.SUN
    ∧ validate lockedRunSpec = true
    ∧ (solvePuzzle lockedRunBoard).1 = some [(5, 5, CellState.SUN)] := by
  decide

/-- C10: the search terminates on every input: any recursion budget
exceeding the work-list length suffices, and the fueled recursion then
computes exactly the total function `dfs`; in particular every
`solvePuzzle` call completes within a budget of one more than its
empty-cell count, returning a solution or NO_SOLUTION. -/
theorem solvePuzzle_terminates :
    (∀ (cells : List (Nat × Nat)) (fuel : Nat) (b : Board),
      cells.length < fuel → dfsFuel fuel cells b = some (dfs cells b))
    ∧ (∀ b : Board,
      dfsFuel ((sortedEmptyCells b).length + 1) (sortedEmptyCells b) b
        = some (solvePuzzle b)) :=
  ⟨dfsFuel_eq_dfs,
   fun b => dfsFuel_eq_dfs (sortedEmptyCells b) ((sortedEmptyCells b).length + 1) b
     (Nat.lt_succ_self _)⟩

/-- Witness for C10: budget 5 completes the 2x2 blank-board search (4
empty cells). -/
theorem solvePuzzle_terminates_witness :
    dfsFuel 5 (sortedEmptyCells tinyBlankBoard) tinyBlankBoard
      = some (solvePuzzle tinyBlankBoard) :=
  solvePuzzle_terminates.1 (sortedEmptyCells tinyBlankBoard) 5 tinyBlankBoard (by decide)

end TanGoat
